import Mathlib

/-!
Verification of the DNA Reverse Complement Tool.

The repository consists of a single pure Python function
`get_reverse_complement(sequence)` that validates a DNA sequence against
the alphabet `ATGCatgc`, raises `ValueError` listing the distinct invalid
characters when validation fails, and otherwise returns the reversal of
the per-character complement of the sequence.

The embedding below models the function faithfully: the dictionary
`complement_map` becomes a `Char → Option Char` lookup (a missing key is
Python's `KeyError`), validation becomes a boolean scan over the
characters, and the raised `ValueError` becomes an `Except` error value
carrying the distinct offending characters.
-/

/-- The dictionary `complement_map` of the source: a partial lookup from a
character to its complement.  A character outside the key set has no
entry, which in Python would raise `KeyError` on lookup. -/
def complement_map (c : Char) : Option Char :=
  if c = 'A' then some 'T'
  else if c = 'T' then some 'A'
  else if c = 'G' then some 'C'
  else if c = 'C' then some 'G'
  else if c = 'a' then some 't'
  else if c = 't' then some 'a'
  else if c = 'g' then some 'c'
  else if c = 'c' then some 'g'
  else none

/-- The validation alphabet `set('ATGCatgc')` of the source. -/
def valid_chars : List Char := ['A', 'T', 'G', 'C', 'a', 't', 'g', 'c']

/-- Membership test `char in valid_chars` of the source. -/
def validChar (c : Char) : Bool := decide (c ∈ valid_chars)

/-- The two ways the source can raise: the explicit `ValueError` carrying
the distinct invalid characters (`set(sequence) - valid_chars`), and the
`KeyError` a dictionary lookup would raise on a missing key. -/
inductive RCError where
  | invalidSequence (chars : List Char)
  | keyError (c : Char)
deriving Repr, DecidableEq

/-- The generator expression `complement_map[base] for base in sequence`:
each lookup may raise `KeyError`, evaluated left to right. -/
def complementList : List Char → Except RCError (List Char)
  | [] => .ok []
  | c :: cs =>
    match complement_map c with
    | some d => (complementList cs).map (fun l => d :: l)
    | none => .error (.keyError c)

/-- The function `get_reverse_complement` of the source: validate every
character, raising `ValueError` with the set of distinct invalid
characters if any fails; otherwise build the complement string and return
its reversal. -/
def get_reverse_complement (sequence : String) : Except RCError String :=
  if sequence.data.all validChar then
    match complementList sequence.data with
    | .ok l => .ok (String.mk l.reverse)
    | .error e => .error e
  else
    .error (.invalidSequence ((sequence.data.filter (fun c => !(validChar c))).dedup))

/-- The spec's case-preserving substitution rule, stated independently of
the source: `A↔T`, `G↔C`, the same pairing on the lowercase alphabet, and
(vacuously, since the spec only applies it to valid characters) the
identity elsewhere. -/
def spec_complement (c : Char) : Char :=
  if c = 'A' then 'T'
  else if c = 'T' then 'A'
  else if c = 'G' then 'C'
  else if c = 'C' then 'G'
  else if c = 'a' then 't'
  else if c = 't' then 'a'
  else if c = 'g' then 'c'
  else if c = 'c' then 'g'
  else c

/-- A sequence is valid when every character lies in the alphabet. -/
def validSeq (s : String) : Prop := ∀ c ∈ s.data, validChar c = true

instance (s : String) : Decidable (validSeq s) := by
  unfold validSeq; infer_instance

/-- The A/T complement class of the alphabet. -/
def classAT (c : Char) : Bool := decide (c ∈ (['A', 'T', 'a', 't'] : List Char))

/-- The G/C complement class of the alphabet. -/
def classGC (c : Char) : Bool := decide (c ∈ (['G', 'C', 'g', 'c'] : List Char))

/-- A valid character is one of the eight alphabet letters. -/
theorem valid_cases {c : Char} (h : validChar c = true) :
    c = 'A' ∨ c = 'T' ∨ c = 'G' ∨ c = 'C' ∨
    c = 'a' ∨ c = 't' ∨ c = 'g' ∨ c = 'c' := by
  simpa [validChar, valid_chars] using h

/-- On a valid character the dictionary lookup succeeds and agrees with
the spec's substitution rule. -/
theorem complement_map_of_valid {c : Char} (h : validChar c = true) :
    complement_map c = some (spec_complement c) := by
  rcases valid_cases h with rfl | rfl | rfl | rfl | rfl | rfl | rfl | rfl <;> rfl

/-- The spec substitution sends valid characters to valid characters. -/
theorem spec_complement_valid {c : Char} (h : validChar c = true) :
    validChar (spec_complement c) = true := by
  rcases valid_cases h with rfl | rfl | rfl | rfl | rfl | rfl | rfl | rfl <;> decide

/-- The spec substitution is an involution on valid characters. -/
theorem spec_complement_invol {c : Char} (h : validChar c = true) :
    spec_complement (spec_complement c) = c := by
  rcases valid_cases h with rfl | rfl | rfl | rfl | rfl | rfl | rfl | rfl <;> decide

/-- The spec substitution preserves the case of a valid character. -/
theorem spec_complement_case {c : Char} (h : validChar c = true) :
    (spec_complement c).isUpper = c.isUpper ∧ (spec_complement c).isLower = c.isLower := by
  rcases valid_cases h with rfl | rfl | rfl | rfl | rfl | rfl | rfl | rfl <;> exact ⟨rfl, rfl⟩

/-- On an all-valid list the generator never hits `KeyError` and computes
the pointwise spec substitution. -/
theorem complementList_ok {l : List Char} (h : ∀ c ∈ l, validChar c = true) :
    complementList l = .ok (l.map spec_complement) := by
  induction l with
  | nil => rfl
  | cons c cs ih =>
    have hc : complement_map c = some (spec_complement c) :=
      complement_map_of_valid (h c (List.mem_cons_self c cs))
    have hcs : complementList cs = .ok (cs.map spec_complement) :=
      ih (fun d hd => h d (List.mem_cons_of_mem c hd))
    simp [complementList, hc, hcs, Except.map]

/-- On a valid sequence the function returns the reversed pointwise
substitution. -/
theorem get_reverse_complement_ok {s : String} (h : validSeq s) :
    get_reverse_complement s = .ok (String.mk ((s.data.map spec_complement).reverse)) := by
  have hall : s.data.all validChar = true := by
    rw [List.all_eq_true]; exact h
  rw [get_reverse_complement, if_pos hall, complementList_ok h]

/-- On an invalid sequence the function raises with the distinct invalid
characters. -/
theorem get_reverse_complement_err {s : String} (h : ¬ validSeq s) :
    get_reverse_complement s =
      .error (.invalidSequence ((s.data.filter (fun c => !(validChar c))).dedup)) := by
  have hall : ¬ (s.data.all validChar = true) := by
    rw [List.all_eq_true]; exact h
  rw [get_reverse_complement, if_neg hall]

/-- The validation alphabet is exactly the key set of the dictionary. -/
theorem validChar_eq_isSome (c : Char) : validChar c = (complement_map c).isSome := by
  by_cases h : validChar c = true
  · rw [h, complement_map_of_valid h]; rfl
  · have h' : validChar c = false := by simpa using h
    have hnone : complement_map c = none := by
      unfold complement_map
      split_ifs <;> first
        | rfl
        | (subst_vars; exact absurd h' (by decide))
    rw [h', hnone]; rfl

/-- The spec substitution fixes the A/T class of a valid character. -/
theorem classAT_spec_complement {c : Char} (h : validChar c = true) :
    classAT (spec_complement c) = classAT c := by
  rcases valid_cases h with rfl | rfl | rfl | rfl | rfl | rfl | rfl | rfl <;> decide

/-- The spec substitution fixes the G/C class of a valid character. -/
theorem classGC_spec_complement {c : Char} (h : validChar c = true) :
    classGC (spec_complement c) = classGC c := by
  rcases valid_cases h with rfl | rfl | rfl | rfl | rfl | rfl | rfl | rfl <;> decide

/-- Pointwise substitution twice over an all-valid list is the identity. -/
theorem map_comp_invol {l : List Char} (h : ∀ c ∈ l, validChar c = true) :
    (l.map spec_complement).map spec_complement = l := by
  induction l with
  | nil => rfl
  | cons c cs ih =>
    simp only [List.map_cons, List.cons.injEq]
    exact ⟨spec_complement_invol (h c (List.mem_cons_self c cs)),
      ih (fun d hd => h d (List.mem_cons_of_mem c hd))⟩

/-- The successful output of the transform is itself a valid sequence. -/
theorem validSeq_output {s : String} (h : validSeq s) :
    validSeq (String.mk ((s.data.map spec_complement).reverse)) := by
  intro c hc
  simp only [List.mem_reverse, List.mem_map] at hc
  obtain ⟨d, hd, rfl⟩ := hc
  exact spec_complement_valid (h d hd)

/-- Claim C1: on an input whose characters all lie in the alphabet
`ATGCatgc`, the function returns exactly the reversal of the string
obtained by substituting each character, in original order, with its
case-preserving complement, and that substitution preserves the case of
every input character. -/
theorem C1_reversed_case_preserving_substitution (s : String) (h : validSeq s) :
    get_reverse_complement s = .ok (String.mk ((s.data.map spec_complement).reverse)) ∧
    ∀ c ∈ s.data, (spec_complement c).isUpper = c.isUpper ∧
      (spec_complement c).isLower = c.isLower :=
  ⟨get_reverse_complement_ok h, fun c hc => spec_complement_case (h c hc)⟩

/-- Witness for claim C1 at the mixed-case input `AtCg`. -/
theorem C1_reversed_case_preserving_substitution_witness :
    validSeq "AtCg" ∧
      (get_reverse_complement "AtCg" =
          .ok (String.mk ((("AtCg" : String).data.map spec_complement).reverse)) ∧
        ∀ c ∈ ("AtCg" : String).data, (spec_complement c).isUpper = c.isUpper ∧
          (spec_complement c).isLower = c.isLower) :=
  ⟨by decide, C1_reversed_case_preserving_substitution "AtCg" (by decide)⟩

/-- Claim C2: the function fails with an `InvalidSequence` error exactly
when some character lies outside the alphabet, and on failure the error
carries precisely the distinct offending characters of the input. -/
theorem C2_invalid_sequence_error_iff (s : String) :
    ((∃ l, get_reverse_complement s = .error (.invalidSequence l)) ↔
      ∃ c ∈ s.data, validChar c = false) ∧
    ∀ l, get_reverse_complement s = .error (.invalidSequence l) →
      l.Nodup ∧ ∀ c, c ∈ l ↔ c ∈ s.data ∧ validChar c = false := by
  by_cases h : validSeq s
  · refine ⟨⟨?_, ?_⟩, ?_⟩
    · rintro ⟨l, hl⟩
      rw [get_reverse_complement_ok h] at hl
      exact absurd hl (by simp)
    · rintro ⟨c, hc, hcf⟩
      exact absurd (h c hc) (by simp [hcf])
    · intro l hl
      rw [get_reverse_complement_ok h] at hl
      exact absurd hl (by simp)
  · refine ⟨⟨?_, ?_⟩, ?_⟩
    · intro _
      have h2 : ¬ ∀ c ∈ s.data, validChar c = true := h
      push_neg at h2
      obtain ⟨c, hc, hcf⟩ := h2
      exact ⟨c, hc, by simpa using hcf⟩
    · intro _
      exact ⟨_, get_reverse_complement_err h⟩
    · intro l hl
      rw [get_reverse_complement_err h] at hl
      simp only [Except.error.injEq, RCError.invalidSequence.injEq] at hl
      subst hl
      refine ⟨List.nodup_dedup _, fun c => ?_⟩
      simp [List.mem_dedup, List.mem_filter, Bool.not_eq_true']

/-- Claim C3: on valid inputs the transform is an involution. -/
theorem C3_involution (s : String) (h : validSeq s) :
    ∃ t, get_reverse_complement s = .ok t ∧ get_reverse_complement t = .ok s := by
  refine ⟨_, get_reverse_complement_ok h, ?_⟩
  rw [get_reverse_complement_ok (validSeq_output h)]
  have hdata : (((s.data.map spec_complement).reverse).map spec_complement).reverse
      = s.data := by
    rw [List.map_reverse, List.reverse_reverse, map_comp_invol h]
  exact congrArg Except.ok (String.ext hdata)

/-- Witness for claim C3 at the input `GATTaca`. -/
theorem C3_involution_witness :
    validSeq "GATTaca" ∧
      ∃ t, get_reverse_complement "GATTaca" = .ok t ∧
        get_reverse_complement t = .ok "GATTaca" :=
  ⟨by decide, C3_involution "GATTaca" (by decide)⟩

/-- Claim C4: on valid inputs the output has the same length as the
input. -/
theorem C4_length_preserved (s : String) (h : validSeq s) :
    ∃ t, get_reverse_complement s = .ok t ∧ t.length = s.length := by
  refine ⟨_, get_reverse_complement_ok h, ?_⟩
  show ((s.data.map spec_complement).reverse).length = s.data.length
  rw [List.length_reverse, List.length_map]

/-- Witness for claim C4 at the input `AAATTTGGGCCC`. -/
theorem C4_length_preserved_witness :
    validSeq "AAATTTGGGCCC" ∧
      ∃ t, get_reverse_complement "AAATTTGGGCCC" = .ok t ∧
        t.length = ("AAATTTGGGCCC" : String).length :=
  ⟨by decide, C4_length_preserved "AAATTTGGGCCC" (by decide)⟩

/-- Claim C5: on valid inputs every character of the output again lies in
the alphabet. -/
theorem C5_alphabet_closed (s : String) (h : validSeq s) :
    ∃ t, get_reverse_complement s = .ok t ∧ validSeq t :=
  ⟨_, get_reverse_complement_ok h, validSeq_output h⟩

/-- Witness for claim C5 at the input `acgtACGT`. -/
theorem C5_alphabet_closed_witness :
    validSeq "acgtACGT" ∧
      ∃ t, get_reverse_complement "acgtACGT" = .ok t ∧ validSeq t :=
  ⟨by decide, C5_alphabet_closed "acgtACGT" (by decide)⟩

/-- Claim C6: the empty sequence is accepted and maps to itself. -/
theorem C6_empty_maps_to_itself : get_reverse_complement "" = .ok "" := rfl

/-- Claim C7: the concrete scenarios of the spec hold. -/
theorem C7_concrete_scenarios :
    get_reverse_complement "A" = .ok "T" ∧
    get_reverse_complement "AT" = .ok "AT" ∧
    get_reverse_complement "ATCG" = .ok "CGAT" ∧
    get_reverse_complement "GAATTC" = .ok "GAATTC" ∧
    get_reverse_complement "atcg" = .ok "cgat" ∧
    get_reverse_complement "AAGCTT" = .ok "AAGCTT" :=
  ⟨rfl, rfl, rfl, rfl, rfl, rfl⟩

/-- Claim C8: on valid inputs the transform preserves the number of
characters in the A/T complement class and in the G/C complement
class. -/
theorem C8_class_counts_preserved (s : String) (h : validSeq s) :
    ∃ t, get_reverse_complement s = .ok t ∧
      t.data.countP classAT = s.data.countP classAT ∧
      t.data.countP classGC = s.data.countP classGC := by
  refine ⟨_, get_reverse_complement_ok h, ?_, ?_⟩
  · show ((s.data.map spec_complement).reverse).countP classAT = s.data.countP classAT
    rw [List.countP_reverse, List.countP_map]
    exact List.countP_congr (fun c hc => by
      simp [Function.comp, classAT_spec_complement (h c hc)])
  · show ((s.data.map spec_complement).reverse).countP classGC = s.data.countP classGC
    rw [List.countP_reverse, List.countP_map]
    exact List.countP_congr (fun c hc => by
      simp [Function.comp, classGC_spec_complement (h c hc)])

/-- Witness for claim C8 at the input `AAGGct`. -/
theorem C8_class_counts_preserved_witness :
    validSeq "AAGGct" ∧
      ∃ t, get_reverse_complement "AAGGct" = .ok t ∧
        t.data.countP classAT = ("AAGGct" : String).data.countP classAT ∧
        t.data.countP classGC = ("AAGGct" : String).data.countP classGC :=
  ⟨by decide, C8_class_counts_preserved "AAGGct" (by decide)⟩

/-- Claim C9: the validation alphabet is exactly the key set of the
dictionary, so on every input the function either raises the validation
error or returns a string, and the `KeyError` branch is unreachable. -/
theorem C9_total_keyerror_unreachable (s : String) :
    (∀ c, validChar c = (complement_map c).isSome) ∧
    ((∃ l, get_reverse_complement s = .error (.invalidSequence l)) ∨
      ∃ t, get_reverse_complement s = .ok t) ∧
    ∀ c, get_reverse_complement s ≠ .error (.keyError c) := by
  refine ⟨validChar_eq_isSome, ?_, ?_⟩
  · by_cases h : validSeq s
    · exact .inr ⟨_, get_reverse_complement_ok h⟩
    · exact .inl ⟨_, get_reverse_complement_err h⟩
  · intro c hc
    by_cases h : validSeq s
    · rw [get_reverse_complement_ok h] at hc
      exact absurd hc (by simp)
    · rw [get_reverse_complement_err h] at hc
      simp at hc

/-- Claim C10: on valid inputs the transform distributes over
concatenation as an anti-homomorphism. -/
theorem C10_append_anti_homomorphism (s t : String)
    (hs : validSeq s) (ht : validSeq t) :
    ∃ u v, get_reverse_complement s = .ok u ∧ get_reverse_complement t = .ok v ∧
      get_reverse_complement (s ++ t) = .ok (v ++ u) := by
  have hst : validSeq (s ++ t) := by
    intro c hc
    rw [show (s ++ t).data = s.data ++ t.data from rfl, List.mem_append] at hc
    rcases hc with hc | hc
    · exact hs c hc
    · exact ht c hc
  refine ⟨_, _, get_reverse_complement_ok hs, get_reverse_complement_ok ht, ?_⟩
  rw [get_reverse_complement_ok hst]
  refine congrArg Except.ok (String.ext ?_)
  show ((s ++ t).data.map spec_complement).reverse =
    (t.data.map spec_complement).reverse ++ (s.data.map spec_complement).reverse
  rw [show (s ++ t).data = s.data ++ t.data from rfl, List.map_append,
    List.reverse_append]

/-- Witness for claim C10 at the inputs `AT` and `gc`. -/
theorem C10_append_anti_homomorphism_witness :
    validSeq "AT" ∧ validSeq "gc" ∧
      ∃ u v, get_reverse_complement "AT" = .ok u ∧
        get_reverse_complement "gc" = .ok v ∧
        get_reverse_complement ("AT" ++ "gc") = .ok (v ++ u) :=
  ⟨by decide, by decide, C10_append_anti_homomorphism "AT" "gc" (by decide) (by decide)⟩
